import Mathlib

/-!
Verification development for the CSV → IPTC matching engine
(`apply_iptc.py`).  The matching core — `find_best_match` and
`disambiguate_matches` — is embedded shallowly below: Python strings
become `String`, byte sizes become `Nat`, the CSV declared size becomes
`Int` (Python's unbounded `int`), and the raising `int(...)` conversion
is modelled by `Option`/`Except`.  String builtins (`str.lower`,
`str.strip`, `str.split`, `os.path.splitext`, substring tests,
`str.isdigit`) are modelled over `List Char` with ASCII semantics, which
covers every comparison the matcher performs on this repository's data.
-/

set_option autoImplicit false

/-! ### Python string primitives -/

/-- ASCII model of `str.lower`: maps `A`–`Z` to `a`–`z`, leaves every
other character (including already-lowercase non-ASCII such as `ø`)
unchanged. -/
def pyLowerChar (c : Char) : Char :=
  if 'A' ≤ c ∧ c ≤ 'Z' then Char.ofNat (c.toNat + 32) else c

def pyLower (s : String) : String :=
  ⟨s.data.map pyLowerChar⟩

/-- ASCII whitespace, the characters `str.strip()` removes. -/
def isPyWs (c : Char) : Bool :=
  c = ' ' ∨ c = '\t' ∨ c = '\n' ∨ c = '\r' ∨ c = '\x0b' ∨ c = '\x0c'

/-- Model of `str.strip()`: drop whitespace from both ends. -/
def pyStrip (s : String) : String :=
  ⟨((s.data.dropWhile isPyWs).reverse.dropWhile isPyWs).reverse⟩

/-- `List`-level prefix test used to model Python's `str.startswith`. -/
def isPrefixL : List Char → List Char → Bool
  | [], _ => true
  | _ :: _, [] => false
  | a :: as, b :: bs => a = b && isPrefixL as bs

def pyStarts (s pre : String) : Bool :=
  isPrefixL pre.data s.data

/-- Substring occurrence over `List Char` (Python's `needle in hay`). -/
def isSubL (needle : List Char) : List Char → Bool
  | [] => needle.isEmpty
  | b :: bs => isPrefixL needle (b :: bs) || isSubL needle bs

/-- Model of Python's `needle in hay` on strings. -/
def pyContains (hay needle : String) : Bool :=
  isSubL needle.data hay.data

/-- Accumulator loop behind `str.split()` (whitespace split, empties
discarded). -/
def splitWsGo : List Char → List Char → List String
  | [], acc => if acc.isEmpty then [] else [⟨acc.reverse⟩]
  | c :: rest, acc =>
    if isPyWs c then
      if acc.isEmpty then splitWsGo rest [] else ⟨acc.reverse⟩ :: splitWsGo rest []
    else splitWsGo rest (c :: acc)

/-- Model of `str.split()` with no arguments: split on whitespace runs,
no empty fields. -/
def pySplitWs (s : String) : List String :=
  splitWsGo s.data []

/-- Index of the last occurrence of `c`, the heart of `str.rfind`. -/
def lastIdxOf (c : Char) : List Char → Option Nat
  | [] => none
  | x :: xs =>
    match lastIdxOf c xs with
    | some i => some (i + 1)
    | none => if x = c then some 0 else none

/-- Model of `os.path.splitext(p)[0]` (posixpath): split at the last dot
provided it lies after the last separator and the basename does not
consist solely of leading dots up to it. -/
def splitextRoot (p : String) : String :=
  match lastIdxOf '.' p.data with
  | none => p
  | some di =>
    let fi : Nat := match lastIdxOf '/' p.data with | none => 0 | some si => si + 1
    if fi ≤ di then
      if ((p.data.drop fi).take (di - fi)).any (fun c => !(c == '.')) then
        ⟨p.data.take di⟩
      else p
    else p

/-- Model of `s.split('.')[0]`: the characters before the first dot. -/
def takeBeforeDot (s : String) : String :=
  ⟨s.data.takeWhile (fun c => !(c == '.'))⟩

/-- `''.join(c for c in s if c.isdigit())` — the digit sequence of a
filename (`get_numbers` in `find_best_match`). -/
def get_numbers (s : String) : String :=
  ⟨s.data.filter Char.isDigit⟩

def digitVal (c : Char) : Nat := c.toNat - 48

/-- Digit-string value, `none` when empty or containing a non-digit —
the core of Python's `int(str)`. -/
def digitsVal (l : List Char) : Option Nat :=
  match l with
  | [] => none
  | _ :: _ =>
    if l.all Char.isDigit then
      some (l.foldl (fun a c => a * 10 + digitVal c) 0)
    else none

/-- Model of Python `int(s)` on a string: optional surrounding
whitespace, optional sign, then a non-empty run of ASCII digits;
everything else raises `ValueError`, modelled as `none`. -/
def pyInt (s : String) : Option Int :=
  match (pyStrip s).data with
  | [] => none
  | c :: cs =>
    if c = '-' then (digitsVal cs).map (fun n => -(n : Int))
    else if c = '+' then (digitsVal cs).map (fun n => (n : Int))
    else (digitsVal (c :: cs)).map (fun n => (n : Int))

/-- Syntactic well-formedness of an integer numeral, matching exactly
the strings `pyInt` accepts. -/
def intLiteral (s : String) : Bool :=
  match (pyStrip s).data with
  | [] => false
  | c :: cs =>
    if c = '-' ∨ c = '+' then !cs.isEmpty && cs.all Char.isDigit
    else (c :: cs).all Char.isDigit

/-! ### Timestamps (`datetime.strptime` and datetime subtraction) -/

def isLeap (y : Nat) : Bool :=
  y % 4 == 0 && (y % 100 != 0 || y % 400 == 0)

def daysInMonth (y m : Nat) : Nat :=
  if m = 2 then (if isLeap y then 29 else 28)
  else if m = 4 ∨ m = 6 ∨ m = 9 ∨ m = 11 then 30
  else 31

def daysBeforeMonth (y m : Nat) : Nat :=
  ((List.range (m - 1)).map (fun i => daysInMonth y (i + 1))).foldl Nat.add 0

/-- Days of the proleptic Gregorian calendar strictly before year `y`
(year 1 is day 0), as in Python's `datetime`. -/
def daysBeforeYear (y : Nat) : Nat :=
  let n := y - 1
  n * 365 + n / 4 - n / 100 + n / 400

/-- Seconds since the calendar origin; two timestamps subtract to the
same number of seconds as Python `datetime` subtraction. -/
def toSeconds (y mo d hh mi ss : Nat) : Nat :=
  (daysBeforeYear y + daysBeforeMonth y mo + (d - 1)) * 86400 + hh * 3600 + mi * 60 + ss

/-- Model of `datetime.strptime(s, "%Y{sep}%m{sep}%d %H:%M:%S")` for the
two fixed formats the program uses (`sep` is `-` for the CSV publish
date and `:` for the EXIF modify date); a failed parse (`ValueError`) is
`none`.  Fields are fixed-width and range-checked against the real
calendar, as `datetime` validates them. -/
def parseTsWith (sep : Char) (s : String) : Option Nat :=
  match s.data with
  | [y1, y2, y3, y4, a, mo1, mo2, b, d1, d2, sp, h1, h2, c1, mi1, mi2, c2, sec1, sec2] =>
    if (a = sep ∧ b = sep ∧ sp = ' ' ∧ c1 = ':' ∧ c2 = ':') ∧
        ([y1, y2, y3, y4, mo1, mo2, d1, d2, h1, h2, mi1, mi2, sec1, sec2].all Char.isDigit) then
      let y := ((digitVal y1 * 10 + digitVal y2) * 10 + digitVal y3) * 10 + digitVal y4
      let mo := digitVal mo1 * 10 + digitVal mo2
      let d := digitVal d1 * 10 + digitVal d2
      let hh := digitVal h1 * 10 + digitVal h2
      let mi := digitVal mi1 * 10 + digitVal mi2
      let ss := digitVal sec1 * 10 + digitVal sec2
      if 1 ≤ y ∧ 1 ≤ mo ∧ mo ≤ 12 ∧ 1 ≤ d ∧ d ≤ daysInMonth y mo ∧ hh ≤ 23 ∧ mi ≤ 59 ∧ ss ≤ 59 then
        some (toSeconds y mo d hh mi ss)
      else none
    else none
  | _ => none

/-! ### Data model -/

/-- The image-record fields the matching core reads (`get_img_metadata`
also extracts dimensions, camera and lens, which the matcher never
consults). -/
structure Img where
  filename : String
  raw_filename : String
  size : Nat
  modify_date : String
deriving DecidableEq

/-- The CSV-row fields the matching core reads (`Filename`,
`'File Size'`, `'Published Date'`); an absent `File Size` key behaves
exactly like the empty string (`csv_row.get('File Size', 0) or 0`), so
both are represented by `""`.  The descriptive text fields are opaque
to the matcher. -/
structure Row where
  Filename : String
  FileSize : String
  PublishedDate : String
deriving DecidableEq

/-- `int(csv_row.get('File Size', 0) or 0)`: absent/empty is the
sentinel `0`; a non-empty string goes through raising `int(...)`. -/
def parseFileSize (row : Row) : Option Int :=
  if row.FileSize = "" then some 0 else pyInt row.FileSize

/-- `abs(img['size'] - csv_size)` with Python's exact integers. -/
def sizeDiff (cs : Int) (sz : Nat) : Nat :=
  ((sz : Int) - cs).natAbs

/-- `abs(img.size - csv_size) <= min(csv_size * 0.05, 100 * 1024)`.
`0.05` is modelled as the exact rational `1/20`, so the bound reads
`20 * diff ≤ csv_size ∧ diff ≤ 102400`. -/
def withinRelTol (cs : Int) (sz : Nat) : Bool :=
  decide (20 * (sizeDiff cs sz : Int) ≤ cs) && decide (sizeDiff cs sz ≤ 102400)

/-- `size_tolerance = min(csv_size * 0.05, 100 * 1024) if csv_size > 0
else 0` combined with the comparison `diff <= size_tolerance`. -/
def withinSizeTolerance (cs : Int) (sz : Nat) : Bool :=
  if 0 < cs then withinRelTol cs sz else decide (sizeDiff cs sz = 0)

/-- Strategy 2 of the ladder, and also the size test of the fallback
pass (the source writes the identical expression in both places):
`csv_size > 0 and abs(img['size'] - csv_size) <= 1024`. -/
def absTolQual (cs : Int) (img : Img) : Bool :=
  decide (0 < cs) && decide (sizeDiff cs img.size ≤ 1024)

/-! ### Minima (`min(...)` over sizes; over timestamps with `inf`) -/

def pyMinNat : List Nat → Nat
  | [] => 0
  | [x] => x
  | x :: y :: t => min x (pyMinNat (y :: t))

/-- Minimum with `none` as `float('inf')`. -/
def oMin : Option Nat → Option Nat → Option Nat
  | none, b => b
  | some a, none => some a
  | some a, some b => some (min a b)

def pyMinOpt : List (Option Nat) → Option Nat
  | [] => none
  | x :: t => oMin x (pyMinOpt t)

/-! ### Disambiguator (`disambiguate_matches`, lines 203–250) -/

/-- `abs((img_date - csv_date).total_seconds())` for one candidate:
`none` when either the row's publish date or the candidate's
`modify_date.split('.')[0]` fails `strptime` (the code catches the
`ValueError` and uses `float('inf')`). -/
def modifyDiff (pub : String) (m : Img) : Option Nat :=
  match parseTsWith '-' pub, parseTsWith ':' (takeBeforeDot m.modify_date) with
  | some t, some u => some (Nat.dist u t)
  | _, _ => none

/-- The candidates at minimal absolute size difference
(`size_matches`, lines 215–218). -/
def sizeKeep (cs : Int) (ms : List Img) : List Img :=
  ms.filter (fun m => sizeDiff cs m.size = pyMinNat (ms.map (fun x => sizeDiff cs x.size)))

/-- The candidates whose timestamp difference equals `d`
(`date_matches`, lines 242–243). -/
def dateKeepAt (pub : String) (d : Nat) (ms : List Img) : List Img :=
  ms.filter (fun m => modifyDiff pub m = some d)

/-- The timestamp tie-break (lines 229–245, reached only when the
row's publish date parsed): the minimal absolute time difference (with
`float('inf')` for unparsable candidate timestamps), resolved only when
it is below the 300-second `DATE_TOLERANCE` and uniquely achieved. -/
def dateStep (pub : String) (ms : List Img) : Option Img :=
  (pyMinOpt (ms.map (modifyDiff pub))).bind (fun d =>
    if d < 300 then
      if (dateKeepAt pub d ms).length = 1 then (dateKeepAt pub d ms).head? else none
    else none)

/-- `disambiguate_matches` with the size already parsed: guards for the
empty and singleton tie set (lines 205–209), then closest size, then —
when `strptime` accepts the row's publish date (its `ValueError` is
swallowed by the enclosing `try`) — the timestamp tie-break, else
`None` (= ambiguous). -/
def disambiguate_core (cs : Int) (pub : String) (ms : List Img) : Option Img :=
  if ms.length ≤ 1 then ms.head?
  else if (sizeKeep cs ms).length = 1 then (sizeKeep cs ms).head?
  else if (parseTsWith '-' pub).isSome then dateStep pub ms
  else none

/-- `disambiguate_matches(csv_row, matches)` as callable from outside:
the guards of lines 205–209 run before the raising
`int(csv_row.get('File Size', 0) or 0)` of line 212, modelled by
`Except.error ()` for an uncaught `ValueError`. -/
def disambiguate_matches (row : Row) (ms : List Img) : Except Unit (Option Img) :=
  if ms.length ≤ 1 then Except.ok ms.head?
  else
    match parseFileSize row with
    | none => Except.error ()
    | some cs => Except.ok (disambiguate_core cs row.PublishedDate ms)

/-! ### Matcher (`find_best_match`, lines 119–201) -/

/-- The nine matching strategies, in source order (lines 140–165). -/
def strategies (filename : String) (cs : Int) : List (Img → Bool) :=
  let base := pyLower (splitextRoot filename)
  let csv_numbers := get_numbers filename
  [ fun img => !img.raw_filename.isEmpty && (pyLower (splitextRoot img.raw_filename) == base),
    fun img => absTolQual cs img,
    fun img => decide (0 < cs) && withinSizeTolerance cs img.size,
    fun img => pyLower img.filename == pyLower filename,
    fun img => pyLower (splitextRoot img.filename) == base,
    fun img => pyStarts filename "JHR" && pyStarts img.filename "Jobb bonus i Lillestrøm kommune" &&
      (get_numbers img.filename == csv_numbers),
    fun img => pyStarts filename "SAL-" && pyStarts img.filename "Overlege Jacob Dag Berild" &&
      (get_numbers img.filename == csv_numbers),
    fun img => !csv_numbers.isEmpty && (get_numbers img.filename == csv_numbers),
    fun img => pyContains (pyLower (splitextRoot img.filename)) base ||
      pyContains base (pyLower (splitextRoot img.filename)) ]

/-- The multi-match arm of the ladder (lines 172–179): when the size is
known, narrow the tie set by the relative tolerance and resolve a
unique survivor, otherwise hand the full tie set to the disambiguator. -/
def narrowOrDisambiguate (cs : Int) (pub : String) (ms : List Img) : Option Img :=
  if 0 < cs then
    if (ms.filter (fun img => withinSizeTolerance cs img.size)).length = 1 then
      (ms.filter (fun img => withinSizeTolerance cs img.size)).head?
    else disambiguate_core cs pub ms
  else disambiguate_core cs pub ms

/-- The strategy loop (lines 168–179).  `some r` means the loop
returned `r` (which may itself be `none` when disambiguation failed);
`none` means no strategy matched and control falls to the fallback
pass. -/
def runLadder (cs : Int) (pub : String) (images : List Img) : List (Img → Bool) → Option (Option Img)
  | [] => none
  | s :: rest =>
    if (images.filter s).length = 1 then some (images.filter s).head?
    else if 1 < (images.filter s).length then some (narrowOrDisambiguate cs pub (images.filter s))
    else runLadder cs pub images rest

/-- Common-word set of the row basename and a candidate basename
(`csv_words.intersection(img_words)`, distinct words). -/
def commonWords (a b : String) : List String :=
  ((pySplitWs a).filter (fun w => (pySplitWs b).contains w)).dedup

/-- The word-overlap test of the fallback pass (lines 190–199): at
least two common words, or one common word longer than five
characters. -/
def wordQual (base : String) (img : Img) : Bool :=
  decide (2 ≤ (commonWords base (pyLower (splitextRoot img.filename))).length) ||
    (commonWords base (pyLower (splitextRoot img.filename))).any (fun w => decide (5 < w.length))

/-- The fallback pass (lines 181–201): one scan over the candidates;
per candidate the 1-KiB size test first, then the word-overlap test. -/
def fallbackScan (base : String) (cs : Int) : List Img → Option Img
  | [] => none
  | img :: rest =>
    if absTolQual cs img || wordQual base img then some img
    else fallbackScan base cs rest

/-- `find_best_match` once the filename is stripped and the size
parsed: the ladder, else the fallback pass. -/
def find_best_match_core (filename : String) (cs : Int) (pub : String) (images : List Img) : Option Img :=
  (runLadder cs pub images (strategies filename cs)).getD
    (fallbackScan (pyLower (splitextRoot filename)) cs images)

/-- `find_best_match(csv_row, images)` (lines 119–201): `None` on an
empty pool before anything else; then the raising size parse (line
125, modelled as `Except.error ()`); then the core.  The Python
function returns either an image record or `None` — there is no third
value. -/
def find_best_match (row : Row) (images : List Img) : Except Unit (Option Img) :=
  if images.isEmpty then Except.ok none
  else
    match parseFileSize row with
    | none => Except.error ()
    | some cs => Except.ok (find_best_match_core (pyStrip row.Filename) cs row.PublishedDate images)

/-! ### The ladder outcome as the specification words it (claim C1) -/

/-- Modelled from the spec: the outcome the spec prescribes for the tie
set of the first strategy that matches at least one candidate — one
match resolves; several first narrow by the relative size tolerance
`min(declaredSize * 0.05, 100 KiB)` unconditionally, resolving a unique
survivor, otherwise the disambiguator's verdict on the full tie set. -/
def claimTieOutcome (cs : Int) (pub : String) (tie : List Img) : Option Img :=
  if tie.length = 1 then tie.head?
  else if (tie.filter (fun img => withinRelTol cs img.size)).length = 1 then
    (tie.filter (fun img => withinRelTol cs img.size)).head?
  else disambiguate_core cs pub tie

/-! ### Helper lemmas -/

theorem head?_mem {α : Type} {l : List α} {a : α} (h : l.head? = some a) : a ∈ l := by
  cases l with
  | nil => cases h
  | cons b t =>
    simp only [List.head?_cons, Option.some.injEq] at h
    exact h ▸ List.mem_cons_self _ _

theorem pyMinNat_le {l : List Nat} {x : Nat} (hx : x ∈ l) : pyMinNat l ≤ x := by
  induction l with
  | nil => cases hx
  | cons a t ih =>
    cases t with
    | nil =>
      rcases List.mem_singleton.mp hx with rfl
      exact Nat.le_refl _
    | cons b u =>
      rcases List.mem_cons.mp hx with rfl | hx2
      · exact min_le_left _ _
      · exact le_trans (min_le_right _ _) (ih hx2)

theorem pyMinNat_mem {l : List Nat} (h : l ≠ []) : pyMinNat l ∈ l := by
  induction l with
  | nil => exact absurd rfl h
  | cons a t ih =>
    cases t with
    | nil => simp [pyMinNat]
    | cons b u =>
      rcases min_choice a (pyMinNat (b :: u)) with hc | hc
      · rw [show pyMinNat (a :: b :: u) = min a (pyMinNat (b :: u)) from rfl, hc]
        exact List.mem_cons_self _ _
      · rw [show pyMinNat (a :: b :: u) = min a (pyMinNat (b :: u)) from rfl, hc]
        exact List.mem_cons_of_mem _ (ih (by simp))

theorem pyMinOpt_mem {l : List (Option Nat)} {d : Nat} (h : pyMinOpt l = some d) : some d ∈ l := by
  induction l with
  | nil => cases h
  | cons a t ih =>
    cases a with
    | none =>
      have ht : pyMinOpt t = some d := by simpa [pyMinOpt, oMin] using h
      exact List.mem_cons_of_mem _ (ih ht)
    | some x =>
      cases hq : pyMinOpt t with
      | none =>
        rw [show pyMinOpt (some x :: t) = oMin (some x) (pyMinOpt t) from rfl, hq] at h
        simp only [oMin, Option.some.injEq] at h
        exact h ▸ List.mem_cons_self _ _
      | some y =>
        rw [show pyMinOpt (some x :: t) = oMin (some x) (pyMinOpt t) from rfl, hq] at h
        simp only [oMin, Option.some.injEq] at h
        rcases min_choice x y with hc | hc
        · rw [hc] at h
          exact h ▸ List.mem_cons_self _ _
        · rw [hc] at h
          subst h
          exact List.mem_cons_of_mem _ (ih hq)

theorem sizeDiff_zero (sz : Nat) : sizeDiff 0 sz = sz := by
  simp [sizeDiff]

theorem withinRelTol_zero (sz : Nat) : withinRelTol 0 sz = decide (sz = 0) := by
  rw [Bool.eq_iff_iff]
  simp only [withinRelTol, sizeDiff_zero, Bool.and_eq_true, decide_eq_true_eq]
  omega

theorem disambiguate_core_size_single {cs : Int} {pub : String} {ms : List Img} {m : Img}
    (h2 : 2 ≤ ms.length) (hk : sizeKeep cs ms = [m]) :
    disambiguate_core cs pub ms = some m := by
  unfold disambiguate_core
  rw [if_neg (by omega : ¬ ms.length ≤ 1), hk]
  simp

theorem disambiguate_core_zero_single {pub : String} {ms : List Img} {m : Img}
    (h2 : 2 ≤ ms.length) (hm : ms.filter (fun i => withinRelTol 0 i.size) = [m]) :
    disambiguate_core 0 pub ms = some m := by
  have hmem : m ∈ ms ∧ withinRelTol 0 m.size = true :=
    List.mem_filter.mp (by rw [hm]; exact List.mem_cons_self _ _)
  have hm0 : m.size = 0 := by
    have h := hmem.2
    rw [withinRelTol_zero] at h
    exact of_decide_eq_true h
  have hle : pyMinNat (ms.map (fun x => sizeDiff 0 x.size)) ≤ 0 := by
    have : sizeDiff 0 m.size ∈ ms.map (fun x => sizeDiff 0 x.size) :=
      List.mem_map_of_mem _ hmem.1
    have h := pyMinNat_le this
    rw [sizeDiff_zero, hm0] at h
    exact h
  have hmin : pyMinNat (ms.map (fun x => sizeDiff 0 x.size)) = 0 := Nat.le_zero.mp hle
  have hkeep : sizeKeep 0 ms = [m] := by
    unfold sizeKeep
    rw [hmin, ← hm]
    apply List.filter_congr
    intro x _
    rw [withinRelTol_zero, sizeDiff_zero]
  exact disambiguate_core_size_single h2 hkeep

theorem narrowOr_eq_claim (cs : Int) (pub : String) (tie : List Img) (h2 : 2 ≤ tie.length) :
    narrowOrDisambiguate cs pub tie =
      (if (tie.filter (fun img => withinRelTol cs img.size)).length = 1
       then (tie.filter (fun img => withinRelTol cs img.size)).head?
       else disambiguate_core cs pub tie) := by
  rcases lt_trichotomy 0 cs with hpos | hzero | hneg
  · have hcong : tie.filter (fun img => withinSizeTolerance cs img.size) =
        tie.filter (fun img => withinRelTol cs img.size) :=
      List.filter_congr (fun x _ => by simp [withinSizeTolerance, hpos])
    rw [narrowOrDisambiguate, if_pos hpos, hcong]
  · subst hzero
    rw [narrowOrDisambiguate, if_neg (by omega : ¬ (0:Int) < 0)]
    by_cases hF : (tie.filter (fun img => withinRelTol 0 img.size)).length = 1
    · obtain ⟨m, hm⟩ := List.length_eq_one.mp hF
      rw [if_pos hF, hm, List.head?_cons]
      exact disambiguate_core_zero_single h2 hm
    · rw [if_neg hF]
  · have hnil : tie.filter (fun img => withinRelTol cs img.size) = [] := by
      apply List.filter_eq_nil_iff.mpr
      intro a _
      simp only [withinRelTol, Bool.and_eq_true, decide_eq_true_eq, not_and]
      intro h20
      exfalso
      omega
    rw [narrowOrDisambiguate, if_neg (by omega : ¬ 0 < cs), hnil]
    simp

theorem runLadder_append {cs : Int} {pub : String} {images : List Img}
    {pre rest : List (Img → Bool)} (h : ∀ p ∈ pre, images.filter p = []) :
    runLadder cs pub images (pre ++ rest) = runLadder cs pub images rest := by
  induction pre with
  | nil => rfl
  | cons a t ih =>
    have ha := h a (List.mem_cons_self _ _)
    show runLadder cs pub images (a :: (t ++ rest)) = _
    rw [runLadder, ha]
    simp only [List.length_nil]
    rw [if_neg (by omega), if_neg (by omega)]
    exact ih (fun p hp => h p (List.mem_cons_of_mem _ hp))

theorem runLadder_first {cs : Int} {pub : String} {images : List Img}
    {s : Img → Bool} {rest : List (Img → Bool)} (hs : images.filter s ≠ []) :
    runLadder cs pub images (s :: rest) =
      some (if (images.filter s).length = 1 then (images.filter s).head?
            else narrowOrDisambiguate cs pub (images.filter s)) := by
  rw [runLadder]
  by_cases h1 : (images.filter s).length = 1
  · rw [if_pos h1, if_pos h1]
  · have hgt : 1 < (images.filter s).length := by
      cases hq : images.filter s with
      | nil => exact absurd hq hs
      | cons a t =>
        rw [hq] at h1
        simp only [List.length_cons] at h1 ⊢
        omega
    rw [if_neg h1, if_neg h1, if_pos hgt]

theorem runLadder_all_nil {cs : Int} {pub : String} {images : List Img}
    {ss : List (Img → Bool)} (h : ∀ p ∈ ss, images.filter p = []) :
    runLadder cs pub images ss = none := by
  induction ss with
  | nil => rfl
  | cons a t ih =>
    have ha := h a (List.mem_cons_self _ _)
    rw [runLadder, ha]
    simp only [List.length_nil]
    rw [if_neg (by omega), if_neg (by omega)]
    exact ih (fun p hp => h p (List.mem_cons_of_mem _ hp))

theorem dateStep_mem {pub : String} {ms : List Img} {r : Img}
    (h : dateStep pub ms = some r) : r ∈ ms := by
  unfold dateStep at h
  cases hq : pyMinOpt (ms.map (modifyDiff pub)) with
  | none => rw [hq, Option.none_bind] at h; cases h
  | some d =>
    rw [hq, Option.some_bind] at h
    by_cases hd : d < 300
    · rw [if_pos hd] at h
      by_cases hk : (dateKeepAt pub d ms).length = 1
      · rw [if_pos hk] at h
        have := head?_mem h
        unfold dateKeepAt at this
        exact (List.mem_filter.mp this).1
      · rw [if_neg hk] at h; cases h
    · rw [if_neg hd] at h; cases h

theorem disambiguate_core_mem {cs : Int} {pub : String} {ms : List Img} {r : Img}
    (h : disambiguate_core cs pub ms = some r) : r ∈ ms := by
  unfold disambiguate_core at h
  by_cases h1 : ms.length ≤ 1
  · rw [if_pos h1] at h
    exact head?_mem h
  · rw [if_neg h1] at h
    by_cases h2 : (sizeKeep cs ms).length = 1
    · rw [if_pos h2] at h
      have := head?_mem h
      unfold sizeKeep at this
      exact (List.mem_filter.mp this).1
    · rw [if_neg h2] at h
      by_cases hp : (parseTsWith '-' pub).isSome
      · rw [if_pos hp] at h
        exact dateStep_mem h
      · rw [if_neg hp] at h; cases h

theorem narrowOr_mem {cs : Int} {pub : String} {ms : List Img} {r : Img}
    (h : narrowOrDisambiguate cs pub ms = some r) : r ∈ ms := by
  unfold narrowOrDisambiguate at h
  by_cases hc : 0 < cs
  · rw [if_pos hc] at h
    by_cases h1 : (ms.filter (fun img => withinSizeTolerance cs img.size)).length = 1
    · rw [if_pos h1] at h
      exact (List.mem_filter.mp (head?_mem h)).1
    · rw [if_neg h1] at h
      exact disambiguate_core_mem h
  · rw [if_neg hc] at h
    exact disambiguate_core_mem h

theorem runLadder_mem {cs : Int} {pub : String} {images : List Img}
    {ss : List (Img → Bool)} {r : Img}
    (h : runLadder cs pub images ss = some (some r)) : r ∈ images := by
  induction ss with
  | nil => cases h
  | cons s rest ih =>
    rw [runLadder] at h
    by_cases h1 : (images.filter s).length = 1
    · rw [if_pos h1] at h
      injection h with h2
      exact (List.mem_filter.mp (head?_mem h2)).1
    · rw [if_neg h1] at h
      by_cases hgt : 1 < (images.filter s).length
      · rw [if_pos hgt] at h
        injection h with h2
        exact (List.mem_filter.mp (narrowOr_mem h2)).1
      · rw [if_neg hgt] at h
        exact ih h

theorem fallbackScan_mem {base : String} {cs : Int} {l : List Img} {r : Img}
    (h : fallbackScan base cs l = some r) : r ∈ l := by
  induction l with
  | nil => cases h
  | cons a t ih =>
    rw [fallbackScan] at h
    by_cases hc : (absTolQual cs a || wordQual base a) = true
    · rw [if_pos hc] at h
      injection h with h2
      exact h2 ▸ List.mem_cons_self _ _
    · rw [if_neg hc] at h
      exact List.mem_cons_of_mem _ (ih h)

theorem find_best_match_core_mem {fn : String} {cs : Int} {pub : String}
    {images : List Img} {r : Img}
    (h : find_best_match_core fn cs pub images = some r) : r ∈ images := by
  unfold find_best_match_core at h
  cases hr : runLadder cs pub images (strategies fn cs) with
  | none =>
    rw [hr, Option.getD_none] at h
    exact fallbackScan_mem h
  | some o =>
    rw [hr, Option.getD_some] at h
    subst h
    exact runLadder_mem hr

theorem fallbackScan_words {base : String} {cs : Int} {l : List Img}
    (hall : ∀ i ∈ l, absTolQual cs i = false) :
    fallbackScan base cs l = (l.filter (fun i => wordQual base i)).head? := by
  induction l with
  | nil => rfl
  | cons a t ih =>
    have ha := hall a (List.mem_cons_self _ _)
    rw [fallbackScan, ha, List.filter_cons]
    by_cases hw : wordQual base a = true
    · rw [hw]
      simp
    · rw [Bool.eq_false_iff.mpr hw]
      simp only [Bool.false_or, if_false, cond_false]
      rw [if_neg (by simp [hw])]
      exact ih (fun i hi => hall i (List.mem_cons_of_mem _ hi))

theorem fallbackScan_none {base : String} {cs : Int} {l : List Img}
    (hall : ∀ i ∈ l, absTolQual cs i = false ∧ wordQual base i = false) :
    fallbackScan base cs l = none := by
  induction l with
  | nil => rfl
  | cons a t ih =>
    have ha := hall a (List.mem_cons_self _ _)
    rw [fallbackScan, ha.1, ha.2]
    simp only [Bool.or_false, if_false, cond_false]
    rw [if_neg (by simp)]
    exact ih (fun i hi => hall i (List.mem_cons_of_mem _ hi))

theorem filter_eq_single_of {p : Img → Bool} {ms : List Img} {m : Img}
    (hc : ms.count m = 1) (hp : ∀ x ∈ ms, (p x = true ↔ x = m)) :
    ms.filter p = [m] := by
  induction ms with
  | nil => simp at hc
  | cons a t ih =>
    by_cases ha : a = m
    · subst ha
      have hcc : (a :: t).count a = t.count a + 1 := List.count_cons_self a t
      have ht0 : t.count a = 0 := by omega
      have hnt : a ∉ t := List.count_eq_zero.mp ht0
      have hft : t.filter p = [] := by
        apply List.filter_eq_nil_iff.mpr
        intro x hx hpx
        exact hnt (((hp x (List.mem_cons_of_mem _ hx)).mp hpx) ▸ hx)
      have hpa : p a = true := (hp a (List.mem_cons_self _ _)).mpr rfl
      rw [List.filter_cons, hpa]
      simp [hft]
    · cases hpa : p a with
      | true => exact absurd ((hp a (List.mem_cons_self _ _)).mp hpa) ha
      | false =>
        rw [List.filter_cons, hpa]
        rw [if_neg (by simp)]
        apply ih
        · rw [List.count_cons] at hc
          simp [ha] at hc
          exact hc
        · intro x hx
          exact hp x (List.mem_cons_of_mem _ hx)

theorem digitsVal_isSome {l : List Char} (hne : l ≠ []) (hall : l.all Char.isDigit = true) :
    ∃ n, digitsVal l = some n := by
  cases l with
  | nil => exact absurd rfl hne
  | cons c cs => exact ⟨_, by rw [digitsVal, if_pos hall]⟩

theorem pyInt_of_literal {s : String} (h : intLiteral s = true) : ∃ n, pyInt s = some n := by
  unfold intLiteral at h
  unfold pyInt
  cases hd : (pyStrip s).data with
  | nil => rw [hd] at h; cases h
  | cons c cs =>
    simp only [hd] at h ⊢
    by_cases hsign : c = '-' ∨ c = '+'
    · rw [if_pos hsign] at h
      simp only [Bool.and_eq_true, Bool.not_eq_true'] at h
      obtain ⟨hne, hall⟩ := h
      have hne2 : cs ≠ [] := by
        intro h0
        rw [h0] at hne
        simp at hne
      obtain ⟨n, hn⟩ := digitsVal_isSome hne2 hall
      rcases hsign with rfl | rfl
      · exact ⟨-(n : Int), by rw [if_pos rfl, hn]; rfl⟩
      · refine ⟨(n : Int), ?_⟩
        rw [if_neg (by decide), if_pos rfl, hn]
        rfl
    · rw [if_neg hsign] at h
      obtain ⟨n, hn⟩ := digitsVal_isSome (by simp) h
      have hcm : ¬ c = '-' := fun hcc => hsign (Or.inl hcc)
      have hcp : ¬ c = '+' := fun hcc => hsign (Or.inr hcc)
      exact ⟨(n : Int), by rw [if_neg hcm, if_neg hcp, hn]; rfl⟩

/-! ### Claim theorems -/

/-- Claim C2: the spec says `Ambiguous` is reported to the caller as a
value distinct from `NoMatch`.  In the code it is not: a row whose tie
set the disambiguator cannot split makes `find_best_match` return the
very same value (`None`, here `Except.ok none`) as a row with no match
at all, as the three conjuncts below evaluate — the second shows the
disambiguator did declare the tie ambiguous.  `main`'s
`match == 'ambiguous'` branch compares against a string the function
never returns, so the caller cannot route the two outcomes
differently. -/
theorem c2_outcome_conflated :
    find_best_match ⟨"x.jpg", "100", ""⟩
      [⟨"x.jpg", "", 100, "bad"⟩, ⟨"X.JPG", "", 100, "bad"⟩] = Except.ok none ∧
    disambiguate_core 100 ""
      [⟨"x.jpg", "", 100, "bad"⟩, ⟨"X.JPG", "", 100, "bad"⟩] = none ∧
    find_best_match ⟨"zzz.jpg", "", ""⟩
      [⟨"x.jpg", "", 100, "bad"⟩, ⟨"X.JPG", "", 100, "bad"⟩] = Except.ok none :=
  ⟨rfl, rfl, rfl⟩

/-- Claim C3: the spec's Scenario B says row `JHR-42.jpg` with the two
`Jobb bonus i Lillestrøm kommune 042/043` candidates resolves to the
`042` file via the JHR numeric-sequence strategy.  The code compares
the digit strings for equality: `get_numbers` gives `"42"` for the row
but `"042"` for the candidate, so strategy 6 (and 8) match nothing and
`find_best_match` returns `None` — even though both prefix guards of
strategy 6 hold, as the last two conjuncts evaluate. -/
theorem c3_jhr_number_mismatch :
    find_best_match ⟨"JHR-42.jpg", "", ""⟩
      [⟨"Jobb bonus i Lillestrøm kommune 042.jpg", "", 100, ""⟩,
       ⟨"Jobb bonus i Lillestrøm kommune 043.jpg", "", 200, ""⟩] = Except.ok none ∧
    get_numbers "JHR-42.jpg" = "42" ∧
    get_numbers "Jobb bonus i Lillestrøm kommune 042.jpg" = "042" ∧
    pyStarts "JHR-42.jpg" "JHR" = true ∧
    pyStarts "Jobb bonus i Lillestrøm kommune 042.jpg" "Jobb bonus i Lillestrøm kommune" = true :=
  ⟨rfl, rfl, rfl, rfl, rfl⟩

/-- Claim C5 counterexample: a declared size that is non-empty but not
a well-formed integer (`"12x"`) makes `int(...)` raise an uncaught
`ValueError` in both `find_best_match` (line 125, candidate pool
non-empty) and `disambiguate_matches` (line 212, tie set of two) —
the claim's "never raises for a size not a well-formed integer" fails. -/
theorem c5_size_fault :
    find_best_match ⟨"a.jpg", "12x", ""⟩ [⟨"x.jpg", "", 100, ""⟩] = Except.error () ∧
    disambiguate_matches ⟨"a.jpg", "12x", ""⟩
      [⟨"x.jpg", "", 100, ""⟩, ⟨"y.jpg", "", 100, ""⟩] = Except.error () :=
  ⟨rfl, rfl⟩

/-- Claim C5 (amended): `resolve` and `disambiguate` never fault when
the declared size field is absent, empty (both the `0` sentinel) or a
well-formed integer numeral, whatever the publish timestamp — an
unparsable timestamp is caught and treated as unknown.  Only a
non-empty, non-numeral size string raises. -/
theorem c5_no_fault (row : Row) (images ms : List Img)
    (h : row.FileSize = "" ∨ intLiteral row.FileSize = true) :
    (∃ o, find_best_match row images = Except.ok o) ∧
    (∃ o, disambiguate_matches row ms = Except.ok o) := by
  have hp : ∃ n, parseFileSize row = some n := by
    rcases h with h | h
    · exact ⟨0, by simp [parseFileSize, h]⟩
    · have hne : ¬ row.FileSize = "" := by
        intro he
        rw [he] at h
        exact absurd h (by decide)
      obtain ⟨n, hn⟩ := pyInt_of_literal h
      exact ⟨n, by simp [parseFileSize, hne, hn]⟩
  obtain ⟨n, hn⟩ := hp
  constructor
  · by_cases he : images.isEmpty
    · exact ⟨none, by rw [find_best_match, if_pos he]⟩
    · exact ⟨_, by rw [find_best_match, if_neg he, hn]⟩
  · by_cases hl : ms.length ≤ 1
    · exact ⟨_, by rw [disambiguate_matches, if_pos hl]⟩
    · exact ⟨_, by rw [disambiguate_matches, if_neg hl, hn]⟩

/-- Witness for C5: a padded numeral size with surrounding blanks and a
garbage publish date still give `Except.ok` outcomes from both
functions. -/
theorem c5_witness :
    (∃ o, find_best_match ⟨"a.jpg", " 042 ", "not a date"⟩
      [⟨"x.jpg", "", 100, "bad"⟩, ⟨"y.jpg", "", 100, "bad"⟩] = Except.ok o) ∧
    (∃ o, disambiguate_matches ⟨"a.jpg", " 042 ", "not a date"⟩
      [⟨"x.jpg", "", 100, "bad"⟩, ⟨"y.jpg", "", 100, "bad"⟩] = Except.ok o) :=
  c5_no_fault ⟨"a.jpg", " 042 ", "not a date"⟩
    [⟨"x.jpg", "", 100, "bad"⟩, ⟨"y.jpg", "", 100, "bad"⟩]
    [⟨"x.jpg", "", 100, "bad"⟩, ⟨"y.jpg", "", 100, "bad"⟩] (Or.inr (by decide))

/-- Claim C8 counterexample: the claim quantifies over every row, but a
row whose declared size is the unknown sentinel `0` defeats it — the
candidate below differs from the declared size by exactly `1024` bytes
yet strategy 2 (`csv_size > 0 and abs(...) <= 1024`) rejects it, since
its `csv_size > 0` guard fails. -/
theorem c8_boundary_counterexample :
    sizeDiff 0 ((⟨"img.jpg", "", 1024, ""⟩ : Img)).size = 1024 ∧
    absTolQual 0 ⟨"img.jpg", "", 1024, ""⟩ = false ∧
    (strategies "row.jpg" 0).get ⟨1, by decide⟩ = fun img => absTolQual 0 img :=
  ⟨rfl, rfl, rfl⟩

/-- Claim C8 (amended): for every row with positive declared size and
every candidate, a byte-size difference of exactly `1024` satisfies
strategy 2's absolute tolerance and a difference of `1025` does not. -/
theorem c8_boundary (cs : Int) (img : Img) (hpos : 0 < cs) :
    (sizeDiff cs img.size = 1024 → absTolQual cs img = true) ∧
    (sizeDiff cs img.size = 1025 → absTolQual cs img = false) := by
  constructor
  · intro h
    unfold absTolQual
    rw [h]
    simp [hpos]
  · intro h
    unfold absTolQual
    rw [h]
    simp [hpos]

/-- Witness for C8: declared size `2048`, candidate size `3072`
(difference exactly `1024`) satisfies strategy 2. -/
theorem c8_witness : absTolQual 2048 ⟨"b.jpg", "", 3072, ""⟩ = true :=
  (c8_boundary 2048 ⟨"b.jpg", "", 3072, ""⟩ (by decide)).1 (by decide)

/-- Claim C6: for every row and tie set of two or more candidates, the
disambiguator (i) resolves the unique candidate at minimal absolute
size difference from the declared size; (ii) failing that, resolves
the candidate at the uniquely achieved minimal absolute
publish-vs-modification time difference, but only when that minimum is
below the 300-second tolerance (unparsable timestamps count as
infinitely far — `none` in `modifyDiff` — and never crash); and (iii)
returns the ambiguous outcome (`none`), never an arbitrary pick, when
the size step fails and no such timestamp breaks the tie. -/
theorem c6_disambiguator (cs : Int) (pub : String) (ms : List Img) (h2 : 2 ≤ ms.length) :
    (∀ m : Img, sizeKeep cs ms = [m] → disambiguate_core cs pub ms = some m) ∧
    (∀ (d : Nat) (m : Img), (sizeKeep cs ms).length ≠ 1 →
      pyMinOpt (ms.map (modifyDiff pub)) = some d → d < 300 →
      dateKeepAt pub d ms = [m] → disambiguate_core cs pub ms = some m) ∧
    ((sizeKeep cs ms).length ≠ 1 →
      (∀ d : Nat, pyMinOpt (ms.map (modifyDiff pub)) = some d → d < 300 →
        (dateKeepAt pub d ms).length ≠ 1) →
      disambiguate_core cs pub ms = none) := by
  refine ⟨fun m hk => disambiguate_core_size_single h2 hk,
    fun d m hsk hmin hd hk => ?_, fun hsk hno => ?_⟩
  · obtain ⟨x, hx, hmx⟩ := List.mem_map.mp (pyMinOpt_mem hmin)
    have hp : (parseTsWith '-' pub).isSome := by
      unfold modifyDiff at hmx
      cases hpp : parseTsWith '-' pub with
      | none =>
        rw [hpp] at hmx
        simp at hmx
      | some t => rfl
    unfold disambiguate_core
    rw [if_neg (by omega : ¬ ms.length ≤ 1), if_neg hsk, if_pos hp]
    unfold dateStep
    rw [hmin, Option.some_bind, if_pos hd, hk]
    simp
  · unfold disambiguate_core
    rw [if_neg (by omega : ¬ ms.length ≤ 1), if_neg hsk]
    by_cases hp : (parseTsWith '-' pub).isSome
    · rw [if_pos hp]
      unfold dateStep
      cases hq : pyMinOpt (ms.map (modifyDiff pub)) with
      | none => rw [Option.none_bind]
      | some d =>
        rw [Option.some_bind]
        by_cases hd : d < 300
        · rw [if_pos hd, if_neg (hno d hq hd)]
        · rw [if_neg hd]
    · rw [if_neg hp]

/-- Witness for C6: declared size 12, candidates of sizes 10 and 50 —
the size-10 candidate is the unique closest and is resolved. -/
theorem c6_witness :
    disambiguate_core 12 "" [⟨"a.jpg", "", 10, ""⟩, ⟨"b.jpg", "", 50, ""⟩] =
      some ⟨"a.jpg", "", 10, ""⟩ :=
  (c6_disambiguator 12 "" [⟨"a.jpg", "", 10, ""⟩, ⟨"b.jpg", "", 50, ""⟩] (by decide)).1
    ⟨"a.jpg", "", 10, ""⟩ (by decide)

/-- Claim C9: the engine never fabricates a record — whenever
`find_best_match` resolves a record it is one of the given candidates,
and whatever record `disambiguate_matches` returns belongs to the tie
set it was given. -/
theorem c9_no_fabrication (row : Row) (images ms : List Img) (r : Img) :
    (find_best_match row images = Except.ok (some r) → r ∈ images) ∧
    (disambiguate_matches row ms = Except.ok (some r) → r ∈ ms) := by
  constructor
  · intro h
    unfold find_best_match at h
    by_cases he : images.isEmpty
    · rw [if_pos he] at h
      injection h with h2
      exact absurd h2 (by simp)
    · rw [if_neg he] at h
      cases hp : parseFileSize row with
      | none =>
        rw [hp] at h
        simp at h
      | some cs =>
        rw [hp] at h
        simp only [Except.ok.injEq] at h
        exact find_best_match_core_mem h
  · intro h
    unfold disambiguate_matches at h
    by_cases hl : ms.length ≤ 1
    · rw [if_pos hl] at h
      injection h with h2
      exact head?_mem h2
    · rw [if_neg hl] at h
      cases hp : parseFileSize row with
      | none =>
        rw [hp] at h
        simp at h
      | some cs =>
        rw [hp] at h
        simp only [Except.ok.injEq] at h
        exact disambiguate_core_mem h

/-- Witness for C9: a resolved record is a member of its candidate
pool. -/
theorem c9_witness :
    (⟨"x.jpg", "", 100, "bad"⟩ : Img) ∈
      [(⟨"x.jpg", "", 100, "bad"⟩ : Img), ⟨"y.jpg", "", 99999, "bad"⟩] :=
  (c9_no_fabrication ⟨"x.jpg", "105", ""⟩
    [⟨"x.jpg", "", 100, "bad"⟩, ⟨"y.jpg", "", 99999, "bad"⟩] []
    ⟨"x.jpg", "", 100, "bad"⟩).1 (by rfl)

/-- Claim C10: when the declared size is the zero sentinel the
closest-size step still runs — every size difference is computed
against `0` and so equals the candidate's own byte size, and the
candidate with the strictly smallest file size (occurring once in the
tie set) is resolved. -/
theorem c10_zero_size (pub : String) (ms : List Img) (m : Img)
    (h2 : 2 ≤ ms.length) (hc : ms.count m = 1)
    (hmin : ∀ x ∈ ms, x ≠ m → m.size < x.size) :
    (∀ x ∈ ms, sizeDiff 0 x.size = x.size) ∧ disambiguate_core 0 pub ms = some m := by
  refine ⟨fun x _ => sizeDiff_zero x.size, ?_⟩
  have hmem : m ∈ ms := by
    by_contra hno
    rw [List.count_eq_zero.mpr hno] at hc
    cases hc
  have hle : pyMinNat (ms.map (fun x => sizeDiff 0 x.size)) ≤ m.size := by
    have hin : sizeDiff 0 m.size ∈ ms.map (fun x => sizeDiff 0 x.size) :=
      List.mem_map_of_mem _ hmem
    have h := pyMinNat_le hin
    rw [sizeDiff_zero] at h
    exact h
  have hmapne : ms.map (fun x => sizeDiff 0 x.size) ≠ [] := by
    intro h0
    rw [List.map_eq_nil_iff] at h0
    rw [h0] at h2
    simp at h2
  obtain ⟨x, hx, hxe⟩ := List.mem_map.mp (pyMinNat_mem hmapne)
  have hminx : pyMinNat (ms.map (fun x => sizeDiff 0 x.size)) = m.size := by
    rcases eq_or_ne x m with rfl | hne
    · rw [← hxe, sizeDiff_zero]
    · have hgt := hmin x hx hne
      rw [sizeDiff_zero] at hxe
      omega
  have hkeep : sizeKeep 0 ms = [m] := by
    unfold sizeKeep
    simp only [hminx]
    apply filter_eq_single_of hc
    intro x hxm
    constructor
    · intro hb
      have heq : sizeDiff 0 x.size = m.size := of_decide_eq_true hb
      rw [sizeDiff_zero] at heq
      by_contra hne
      have := hmin x hxm hne
      omega
    · rintro rfl
      exact decide_eq_true (by rw [sizeDiff_zero])
  exact disambiguate_core_size_single h2 hkeep

/-- Witness for C10: declared size zero, candidates of sizes 5 and 9 —
the size-5 candidate is resolved. -/
theorem c10_witness :
    sizeDiff 0 ((⟨"small.jpg", "", 5, ""⟩ : Img)).size = 5 ∧
    disambiguate_core 0 "x" [⟨"small.jpg", "", 5, ""⟩, ⟨"big.jpg", "", 9, ""⟩] =
      some ⟨"small.jpg", "", 5, ""⟩ := by
  have h := c10_zero_size "x" [⟨"small.jpg", "", 5, ""⟩, ⟨"big.jpg", "", 9, ""⟩]
    ⟨"small.jpg", "", 5, ""⟩ (by decide) (by decide) (by decide)
  exact ⟨h.1 ⟨"small.jpg", "", 5, ""⟩ (List.mem_cons_self _ _), h.2⟩

/-- Claim C4: when every strategy of the ladder matches zero
candidates, the fallback pass returns the first candidate within the
1024-byte absolute size tolerance if any exists, and only otherwise
the first candidate passing the word-overlap test.  The first conjunct
records why the precedence holds: the fallback's size test is the very
predicate of strategy 2, so under the hypothesis no size-qualifying
candidate can exist and the single scan of the source (lines 182–199)
coincides with the claimed two-stage order. -/
theorem c4_fallback (row : Row) (cs : Int) (images : List Img)
    (hcs : parseFileSize row = some cs)
    (hstrat : ∀ s ∈ strategies (pyStrip row.Filename) cs, images.filter s = []) :
    images.filter (fun img => absTolQual cs img) = [] ∧
    find_best_match row images =
      Except.ok (match images.filter (fun img => absTolQual cs img) with
        | a :: _ => some a
        | [] => (images.filter
            (fun img => wordQual (pyLower (splitextRoot (pyStrip row.Filename))) img)).head?) := by
  have hmem : (fun img => absTolQual cs img) ∈ strategies (pyStrip row.Filename) cs := by
    simp only [strategies]
    exact List.mem_cons_of_mem _ (List.mem_cons_self _ _)
  have hsz := hstrat _ hmem
  refine ⟨hsz, ?_⟩
  rw [hsz]
  cases images with
  | nil => rfl
  | cons a t =>
    unfold find_best_match
    rw [if_neg (by simp), hcs]
    show Except.ok (find_best_match_core (pyStrip row.Filename) cs row.PublishedDate (a :: t)) = _
    unfold find_best_match_core
    rw [runLadder_all_nil hstrat, Option.getD_none]
    have hall : ∀ i ∈ a :: t, absTolQual cs i = false := by
      intro i hi
      exact Bool.eq_false_iff.mpr (List.filter_eq_nil_iff.mp hsz i hi)
    rw [fallbackScan_words hall]

/-- Witness for C4: no strategy matches, and the fallback returns the
word-overlap candidate (two common words with the row basename). -/
theorem c4_witness :
    [(⟨"holiday summer beach.jpg", "", 10, ""⟩ : Img)].filter
      (fun img => absTolQual 500000 img) = [] ∧
    find_best_match ⟨"summer holiday.jpg", "500000", ""⟩
      [⟨"holiday summer beach.jpg", "", 10, ""⟩] =
      Except.ok (match [(⟨"holiday summer beach.jpg", "", 10, ""⟩ : Img)].filter
          (fun img => absTolQual 500000 img) with
        | a :: _ => some a
        | [] => ([(⟨"holiday summer beach.jpg", "", 10, ""⟩ : Img)].filter
            (fun img => wordQual (pyLower (splitextRoot (pyStrip "summer holiday.jpg"))) img)).head?) :=
  c4_fallback ⟨"summer holiday.jpg", "500000", ""⟩ 500000
    [⟨"holiday summer beach.jpg", "", 10, ""⟩] rfl (by decide)

/-- Claim C7: `resolve` returns `NoMatch` (`None`) immediately on an
empty candidate pool — before even parsing the size — and returns
`NoMatch` whenever no strategy predicate matches any candidate and
neither fallback heuristic (1024-byte size window, word overlap)
accepts any candidate. -/
theorem c7_nomatch (row : Row) (images : List Img) (cs : Int)
    (hcs : parseFileSize row = some cs)
    (hstrat : ∀ s ∈ strategies (pyStrip row.Filename) cs, images.filter s = [])
    (hfb : ∀ img ∈ images, absTolQual cs img = false ∧
      wordQual (pyLower (splitextRoot (pyStrip row.Filename))) img = false) :
    find_best_match row [] = Except.ok none ∧ find_best_match row images = Except.ok none := by
  refine ⟨rfl, ?_⟩
  cases images with
  | nil => rfl
  | cons a t =>
    unfold find_best_match
    rw [if_neg (by simp), hcs]
    show Except.ok (find_best_match_core (pyStrip row.Filename) cs row.PublishedDate (a :: t)) = _
    unfold find_best_match_core
    rw [runLadder_all_nil hstrat, Option.getD_none, fallbackScan_none hfb]

/-- Witness for C7: Scenario D — `photo.png` against an unrelated
candidate yields `NoMatch`, and the empty pool yields `NoMatch`. -/
theorem c7_witness :
    find_best_match ⟨"photo.png", "", ""⟩ [] = Except.ok none ∧
    find_best_match ⟨"photo.png", "", ""⟩ [⟨"IMG_9999.jpg", "", 77, ""⟩] = Except.ok none :=
  c7_nomatch ⟨"photo.png", "", ""⟩ [⟨"IMG_9999.jpg", "", 77, ""⟩] 0 rfl (by decide) (by decide)

/-- Claim C1: the ladder is evaluated in the fixed source order and the
first strategy whose predicate matches at least one candidate decides
the outcome: one match resolves that candidate; several matches first
narrow by the relative size tolerance, resolving a unique survivor,
and otherwise return the disambiguator's verdict on the full tie set —
later strategies and the fallback are never consulted, even when
disambiguation fails.  (`claimTieOutcome` narrows unconditionally, as
the spec words it; the source skips the narrowing when
`csv_size <= 0`, which `narrowOr_eq_claim` shows is extensionally the
same outcome.) -/
theorem c1_first_strategy_decides (row : Row) (cs : Int) (images : List Img)
    (pre post : List (Img → Bool)) (s : Img → Bool)
    (hcs : parseFileSize row = some cs)
    (hsplit : strategies (pyStrip row.Filename) cs = pre ++ s :: post)
    (hpre : ∀ p ∈ pre, images.filter p = [])
    (hs : images.filter s ≠ []) :
    find_best_match row images =
      Except.ok (claimTieOutcome cs row.PublishedDate (images.filter s)) := by
  have hne : images ≠ [] := by
    intro h0
    rw [h0] at hs
    exact hs rfl
  have hemp : images.isEmpty = false := by
    cases images with
    | nil => exact absurd rfl hne
    | cons a t => rfl
  unfold find_best_match
  rw [if_neg (by rw [hemp]; simp), hcs]
  show Except.ok (find_best_match_core (pyStrip row.Filename) cs row.PublishedDate images) = _
  unfold find_best_match_core
  rw [hsplit, runLadder_append hpre, runLadder_first hs, Option.getD_some]
  by_cases h1 : (images.filter s).length = 1
  · rw [if_pos h1]
    unfold claimTieOutcome
    rw [if_pos h1]
  · rw [if_neg h1]
    have h2 : 2 ≤ (images.filter s).length := by
      cases hq : images.filter s with
      | nil => exact absurd hq hs
      | cons a t =>
        rw [hq] at h1
        simp only [List.length_cons] at h1 ⊢
        omega
    rw [narrowOr_eq_claim cs row.PublishedDate (images.filter s) h2]
    unfold claimTieOutcome
    rw [if_neg h1]

/-- Witness for C1: strategy 1 (embedded original name) matches one
candidate uniquely, with no earlier strategies, and the outcome is
that tie set's claimed outcome. -/
theorem c1_witness :
    find_best_match ⟨"a.jpg", "", ""⟩ [⟨"x.jpg", "A.JPG", 7, ""⟩] =
      Except.ok (claimTieOutcome 0 ""
        ([(⟨"x.jpg", "A.JPG", 7, ""⟩ : Img)].filter
          (fun img => !img.raw_filename.isEmpty &&
            (pyLower (splitextRoot img.raw_filename) == pyLower (splitextRoot (pyStrip "a.jpg")))))) :=
  c1_first_strategy_decides ⟨"a.jpg", "", ""⟩ 0 [⟨"x.jpg", "A.JPG", 7, ""⟩] []
    ((strategies (pyStrip "a.jpg") 0).drop 1)
    (fun img => !img.raw_filename.isEmpty &&
      (pyLower (splitextRoot img.raw_filename) == pyLower (splitextRoot (pyStrip "a.jpg"))))
    rfl rfl (by simp) (by decide)
